import Mathlib

/-!
Shallow embedding of the `tracer` path-tracing repository (src/geom.rs,
src/material.rs, src/trace.rs, src/cam.rs, src/intersect.rs) over the real
numbers.  Rust `f32` arithmetic is modelled by exact real arithmetic:
`f32::sqrt` becomes `Real.sqrt`, `f32::powf` becomes `Real.rpow`,
`f32::sin`/`cos` become `Real.sin`/`Real.cos`.  The per-pixel random
generator (`SmallRng`) is external library code and is modelled as an
abstract stream of real numbers supplied as a parameter.
-/

set_option maxHeartbeats 1000000

noncomputable section

open Real

/-- Three-component vector of reals, modelling `nalgebra_glm::Vec3` (f32 components). -/
structure Vec3 where
  x : ℝ
  y : ℝ
  z : ℝ


namespace Vec3

/-- Componentwise addition. -/
def add (a b : Vec3) : Vec3 := ⟨a.x + b.x, a.y + b.y, a.z + b.z⟩

/-- Componentwise subtraction. -/
def sub (a b : Vec3) : Vec3 := ⟨a.x - b.x, a.y - b.y, a.z - b.z⟩

/-- Componentwise negation. -/
def neg (a : Vec3) : Vec3 := ⟨-a.x, -a.y, -a.z⟩

/-- Scalar multiplication. -/
def smul (r : ℝ) (a : Vec3) : Vec3 := ⟨r * a.x, r * a.y, r * a.z⟩

/-- Componentwise division by a scalar, modelling `Vec3 / f32`. -/
def divScalar (a : Vec3) (r : ℝ) : Vec3 := ⟨a.x / r, a.y / r, a.z / r⟩

/-- Dot product, modelling `Vec3::dot`. -/
def dot (a b : Vec3) : ℝ := a.x * b.x + a.y * b.y + a.z * b.z

/-- Cross product, modelling `Vec3::cross`. -/
def cross (a b : Vec3) : Vec3 :=
  ⟨a.y * b.z - a.z * b.y, a.z * b.x - a.x * b.z, a.x * b.y - a.y * b.x⟩

/-- Componentwise product, modelling `Vec3::component_mul`. -/
def component_mul (a b : Vec3) : Vec3 := ⟨a.x * b.x, a.y * b.y, a.z * b.z⟩

/-- All components equal, modelling `Vec3::repeat`. -/
def repeat' (r : ℝ) : Vec3 := ⟨r, r, r⟩

/-- The zero vector, modelling `Vec3::zeros`. -/
def zeros : Vec3 := ⟨0, 0, 0⟩

/-- Euclidean magnitude, modelling `Vec3::magnitude`. -/
def magnitude (a : Vec3) : ℝ := Real.sqrt (dot a a)

/-- Unit-length rescaling, modelling `Vec3::normalize` (`v / |v|`). -/
def normalize (a : Vec3) : Vec3 := divScalar a (magnitude a)

/-- Maximum component, modelling `glm::comp_max`. -/
def comp_max (a : Vec3) : ℝ := max a.x (max a.y a.z)

/-- Minimum component, modelling `glm::comp_min`. -/
def comp_min (a : Vec3) : ℝ := min a.x (min a.y a.z)

instance : Add Vec3 := ⟨add⟩
instance : Sub Vec3 := ⟨sub⟩
instance : Neg Vec3 := ⟨neg⟩
instance : SMul ℝ Vec3 := ⟨smul⟩
instance : Zero Vec3 := ⟨zeros⟩

end Vec3

/-- Componentwise linear interpolation, modelling `glm::lerp(x, y, a) = x*(1-a) + y*a`. -/
def lerp (x y : Vec3) (a : ℝ) : Vec3 := ((1 : ℝ) - a) • x + a • y

/-- Reflection of a vector about a normal, modelling `glm::reflect_vec(I, N) = I - 2 (N . I) N`. -/
def reflect_vec (I N : Vec3) : Vec3 := I - (2 * Vec3.dot N I) • N

/-- Material parameters, modelling `Mat` from src/material.rs. -/
structure Mat where
  color : Vec3
  fresnel : Vec3
  shininess : ℝ


namespace Mat

/-- Perfect-mirror preset, modelling `Mat::mirror`. -/
def mirror : Mat := ⟨Vec3.repeat' 0, ⟨1, 1, 1⟩, 6000⟩

/-- Pure-diffuse preset, modelling `Mat::diffuse`. -/
def diffuse (color : Vec3) : Mat := ⟨color, Vec3.zeros, 0⟩

end Mat

/-- Result of a direction-sampling routine, modelling `DirSample` from src/material.rs. -/
structure DirSample where
  wi : Vec3
  pdf : ℝ
  brdf : Vec3

/-- Ray without path-tracing bookkeeping, modelling `BasicRay` from src/intersect.rs. -/
structure BasicRay where
  origin : Vec3
  dir : Vec3

/-- Intersection record, modelling `Hit` from src/intersect.rs. -/
structure Hit where
  t : ℝ
  normal : Vec3
  mat : Mat

/-- Full path-tracing ray, modelling `Ray` from src/intersect.rs.  The Rust
`&mut SmallRng` is modelled as the infinite stream of values the generator
will produce (`rng i` is the i-th future draw of `rng.gen::<f32>()`). -/
structure Ray where
  origin : Vec3
  dir : Vec3
  bounces : ℕ
  throughput : Vec3
  rng : ℕ → ℝ

/-- Constant `FRAC_1_PI` used by src/material.rs. -/
def FRAC_1_PI : ℝ := 1 / Real.pi

/-- Schlick Fresnel approximation, modelling `F` from src/material.rs:
`fresnel + (1 - fresnel) * (1 - wh.dot(wi))^5`. -/
def F (wi wh : Vec3) (fresnel : Vec3) : Vec3 :=
  fresnel + ((1 - Vec3.dot wh wi) ^ (5 : ℕ)) • (Vec3.repeat' 1 - fresnel)

/-- Normalized Blinn-Phong microfacet distribution, modelling `D` from
src/material.rs: `(s+2)/(2 pi) * (n.dot(wh))^s`. -/
def D (wh n : Vec3) (shininess : ℝ) : ℝ :=
  (shininess + 2) / (2 * Real.pi) * Real.rpow (Vec3.dot n wh) shininess

/-- Geometric attenuation factor, modelling `G` from src/material.rs. -/
def G (wi wo wh n : Vec3) : ℝ :=
  min 1 (min (2 * Vec3.dot n wh * Vec3.dot n wo / Vec3.dot wo wh)
             (2 * Vec3.dot n wh * Vec3.dot n wi / Vec3.dot wo wh))

/-- Torrance-Sparrow reflection BRDF, modelling `dielectric_reflection_brdf`
from src/material.rs. -/
def dielectric_reflection_brdf (wi wo n : Vec3) (mat : Mat) : Vec3 :=
  if Vec3.dot wo n < 0 then Vec3.zeros
  else
    Vec3.divScalar
      ((D ((wo + wi).normalize) n mat.shininess * G wi wo ((wo + wi).normalize) n) •
        F wi ((wo + wi).normalize) mat.fresnel)
      (4 * Vec3.dot n wo * Vec3.dot n wi)

/-- Lambertian BRDF, modelling `diffuse_brdf` from src/material.rs. -/
def diffuse_brdf (wi wo n : Vec3) (mat : Mat) : Vec3 :=
  if 0 ≤ Vec3.dot wo n ∧ 0 ≤ Vec3.dot wi n then FRAC_1_PI • mat.color
  else Vec3.zeros

/-- Energy-conserving attenuation of the diffuse layer, modelling
`attenuate_diffuse_refraction` from src/material.rs. -/
def attenuate_diffuse_refraction (wi wo : Vec3) (brdf : Vec3) (mat : Mat) : Vec3 :=
  Vec3.component_mul (Vec3.repeat' 1 - F wi ((wo + wi).normalize) mat.fresnel) brdf

/-- Refraction-layer BRDF, modelling `dielectric_refraction_brdf` from src/material.rs. -/
def dielectric_refraction_brdf (wi wo n : Vec3) (mat : Mat) : Vec3 :=
  attenuate_diffuse_refraction wi wo (diffuse_brdf wi wo n mat) mat

/-- Two-lobe dielectric BRDF, modelling `dielectric_brdf` from src/material.rs. -/
def dielectric_brdf (wi wo n : Vec3) (mat : Mat) : Vec3 :=
  dielectric_reflection_brdf wi wo n mat + dielectric_refraction_brdf wi wo n mat

/-- Public BRDF entry point, modelling `brdf` from src/material.rs. -/
def brdf (wi wo n : Vec3) (mat : Mat) : Vec3 := dielectric_brdf wi wo n mat

/-- Local-frame transform around a normal, modelling
`orthonormal_basis_inverse_transform` from src/material.rs. -/
def orthonormal_basis_inverse_transform (normal wi : Vec3) : Vec3 :=
  let w_up : Vec3 := if 0.1 < |normal.x| then ⟨0, 1, 0⟩ else ⟨1, 0, 0⟩
  let tangent := (Vec3.cross normal w_up).normalize
  let bitangent := (Vec3.cross normal tangent).normalize
  wi.x • tangent + wi.y • bitangent + wi.z • normal

/-- Cosine-weighted hemisphere sample, modelling `Sampler::cosine_sample_hemisphere`
from src/material.rs; `r1` and `r2` are the two `rand` draws. -/
def cosine_sample_hemisphere (r1 r2 : ℝ) : Vec3 :=
  let r1' := 2 * Real.pi * r1
  let r2s := Real.sqrt r2
  ⟨Real.cos r1' * r2s, Real.sin r1' * r2s, Real.sqrt (1 - r2)⟩

/-- Microfacet importance sample, modelling `Sampler::dielectric_reflection_sample_wi`
from src/material.rs; `r1` (for phi) and `r2` (for cos_theta) are the two
`rand` draws, in the order the Rust code draws them. -/
def dielectric_reflection_sample_wi (r1 r2 : ℝ) (wo n : Vec3) (mat : Mat) : DirSample :=
  let phi := 2 * Real.pi * r1
  let cos_theta := Real.rpow r2 (1 / (mat.shininess + 1))
  let sin_theta := Real.sqrt (1 - cos_theta * cos_theta)
  let wh := orthonormal_basis_inverse_transform n
    ⟨sin_theta * Real.cos phi, sin_theta * Real.sin phi, cos_theta⟩
  let pdf_wh := (mat.shininess + 1) * Real.rpow (Vec3.dot n wh) mat.shininess /
    (2 * Real.pi)
  let wi := reflect_vec (-wo) wh
  let pdf_wi := if 0 ≤ Vec3.dot wi n then pdf_wh / (4 * Vec3.dot wo wh) else 0
  ⟨wi, pdf_wi, dielectric_reflection_brdf wi wo n mat⟩

/-- Cosine-weighted diffuse sample, modelling `Sampler::diffuse_sample_wi`
from src/material.rs. -/
def diffuse_sample_wi (r1 r2 : ℝ) (wo n : Vec3) (mat : Mat) : DirSample :=
  let wi := orthonormal_basis_inverse_transform n (cosine_sample_hemisphere r1 r2)
  ⟨wi, max 0 (Vec3.dot n wi) * FRAC_1_PI, diffuse_brdf wi wo n mat⟩

/-- Refraction-lobe sample, modelling `Sampler::dielectric_refraction_sample_wi`
from src/material.rs. -/
def dielectric_refraction_sample_wi (r1 r2 : ℝ) (wo n : Vec3) (mat : Mat) : DirSample :=
  let sample := diffuse_sample_wi r1 r2 wo n mat
  ⟨sample.wi, sample.pdf,
    attenuate_diffuse_refraction sample.wi wo sample.brdf mat⟩

/-- Russian-roulette lobe-selection probability of `Sampler::dielectric_sample_wi`:
`0.5 + comp_min(fresnel) / 2`. -/
def roulette_p (mat : Mat) : ℝ := 0.5 + Vec3.comp_min mat.fresnel / 2

/-- Two-lobe sample with Russian-roulette lobe selection, modelling
`Sampler::dielectric_sample_wi` from src/material.rs; `r0` is the lobe-selection
draw, `r1`/`r2` the draws consumed by the chosen lobe. -/
def dielectric_sample_wi (r0 r1 r2 : ℝ) (wo n : Vec3) (mat : Mat) : DirSample :=
  let p := roulette_p mat
  if r0 < p then
    let sample := dielectric_reflection_sample_wi r1 r2 wo n mat
    ⟨sample.wi, sample.pdf * p, sample.brdf⟩
  else
    let sample := dielectric_refraction_sample_wi r1 r2 wo n mat
    ⟨sample.wi, sample.pdf * (1 - p), sample.brdf⟩

/-- Public sampling entry point, modelling `sample_wi` from src/material.rs.
The Rust function's `&mut SmallRng` draws are passed as `r0 r1 r2`. -/
def sample_wi (r0 r1 r2 : ℝ) (wo n : Vec3) (mat : Mat) : DirSample :=
  dielectric_sample_wi r0 r1 r2 wo n mat

/-- Sphere primitive, modelling `Sphere` from src/geom.rs. -/
structure Sphere where
  centre : Vec3
  radius : ℝ
  mat : Mat

/-- Ray-sphere intersection, modelling `Sphere::intersect` from src/geom.rs.
The three-way `match` on `(root0 <= root1, root0 >= 0.0, root1 >= 0.0)` with
arms `(true, true, _)`, `(false, _, true)` and `_ => None` is rendered as the
equivalent nested conditional. -/
def Sphere.intersect (s : Sphere) (ray : BasicRay) : Option Hit :=
  let oc := ray.origin - s.centre
  let a := Vec3.dot ray.dir ray.dir
  let b := 2 * Vec3.dot oc ray.dir
  let c := Vec3.dot oc oc - s.radius * s.radius
  let discriminant := b * b - 4 * a * c
  if discriminant < 0 then none
  else
    let sdiscriminant := Real.sqrt discriminant
    let root0 := -b - sdiscriminant
    let root1 := -b + sdiscriminant
    let mr : Option ℝ :=
      if root0 ≤ root1 then (if 0 ≤ root0 then some root0 else none)
      else (if 0 ≤ root1 then some root1 else none)
    mr.map (fun r =>
      let t := r / (2 * a)
      ⟨t, Vec3.divScalar (oc + t • ray.dir) s.radius, s.mat⟩)

/-- Minimum of a list of hits by `t`, modelling
`Iterator::min_by(|h1, h2| h1.t.partial_cmp(&h2.t) ...)` from src/geom.rs
(first minimal element is kept on ties). -/
def min_by_t : List Hit → Option Hit
  | [] => none
  | h :: hs => some (hs.foldl (fun acc x => if x.t < acc.t then x else acc) h)

/-- Closest-hit query over a scene, modelling `closest_hit` from src/geom.rs. -/
def closest_hit (ray : Ray) (scene : List Sphere) : Option Hit :=
  min_by_t (scene.filterMap (fun obj =>
    obj.intersect ⟨ray.origin, ray.dir⟩))

/-- Any-hit query over a scene, modelling `any_hit` from src/geom.rs
(`.next()` on the flat-mapped iterator is the head of the list of hits). -/
def any_hit (ray : BasicRay) (scene : List Sphere) : Option Hit :=
  (scene.filterMap (fun obj => obj.intersect ray)).head?

/-- Constant `RAY_EPSILON` from src/trace.rs. -/
def RAY_EPSILON : ℝ := 0.0001

/-- Constant `MAX_BOUNCES` from src/trace.rs. -/
def MAX_BOUNCES : ℕ := 3

/-- Sentinel color for unwritten pixels, modelling `ERR_COLOR` from src/trace.rs. -/
def ERR_COLOR : Vec3 := ⟨1000000, 0, 1000000⟩

/-- Constant sky color, modelling `background_color` from src/trace.rs. -/
def background_color : Vec3 := ⟨0.5, 0.7, 1⟩

/-- Direct point-light contribution, modelling `direct_light` from src/trace.rs. -/
def direct_light (hit : Hit) (hit_pos wo : Vec3) (scene : List Sphere) : Vec3 :=
  let light_pos : Vec3 := ⟨10, 20, -10⟩
  let light_emission : Vec3 := (1400 : ℝ) • (⟨1, 0.95, 0.9⟩ : Vec3)
  let dist := (light_pos - hit_pos).magnitude
  let wl := (light_pos - hit_pos).normalize
  if Vec3.dot hit.normal wl ≤ 0 then Vec3.zeros
  else
    let shadow_ray : BasicRay := ⟨hit_pos + RAY_EPSILON • wl, wl⟩
    if (any_hit shadow_ray scene).isSome then Vec3.zeros
    else
      let weight := Vec3.divScalar ((Vec3.dot hit.normal wl) • brdf wl wo hit.normal hit.mat)
        (dist * dist)
      Vec3.component_mul light_emission weight

/-- Recursive path integrator, modelling `trace` from src/trace.rs.  The ray's
bounce budget strictly decreases at the recursive call, mirroring
`bounces: ray.bounces - 1`; `sample_wi` consumes three generator draws, so the
indirect ray continues the stream shifted by three. -/
def trace (ray : Ray) (scene : List Sphere) : Vec3 :=
  match closest_hit ray scene with
  | some hit =>
    let wo := -ray.dir
    let hit_pos := ray.origin + hit.t • ray.dir
    let radiance := direct_light hit hit_pos wo scene
    let sample := sample_wi (ray.rng 0) (ray.rng 1) (ray.rng 2) wo hit.normal hit.mat
    let cosineterm := |Vec3.dot sample.wi hit.normal|
    let throughput :=
      if sample.pdf ≠ 0 then
        Vec3.component_mul ray.throughput
          (Vec3.divScalar (cosineterm • sample.brdf) sample.pdf)
      else Vec3.zeros
    let result := Vec3.component_mul radiance ray.throughput
    if h : 0 < ray.bounces ∧ 0.01 < Vec3.comp_max throughput then
      result + trace ⟨hit_pos + RAY_EPSILON • sample.wi, sample.wi,
        ray.bounces - 1, throughput, fun i => ray.rng (i + 3)⟩ scene
    else result
  | none => Vec3.component_mul background_color ray.throughput
termination_by ray.bounces
decreasing_by omega

/-- Constant `FOV` from src/cam.rs. -/
def FOV : ℝ := 80

/-- Camera, modelling `Cam` from src/cam.rs. -/
structure Cam where
  pos : Vec3
  dir : Vec3

/-- Camera constructor, modelling `Cam::new`. -/
def Cam.new (pos target : Vec3) : Cam := ⟨pos, (target - pos).normalize⟩

/-- Screen basis vectors, modelling `Cam::screen_vecs` from src/cam.rs. -/
def Cam.screen_vecs (cam : Cam) (w h : ℝ) : Vec3 × Vec3 × Vec3 :=
  let world_up : Vec3 := ⟨0, 1, 0⟩
  let cam_right := (Vec3.cross cam.dir world_up).normalize
  let cam_up := (Vec3.cross cam_right cam.dir).normalize
  let aspect_ratio := w / h
  let f := (FOV * Real.pi / 180) / 2
  let a := Real.cos f • cam.dir
  let b := Real.sin f • cam_up
  let c := (Real.sin f * aspect_ratio) • cam_right
  let screen_origin := a - c - b
  let screen_x_axis := (2 : ℝ) • (a - b - screen_origin)
  let screen_y_axis := (2 : ℝ) • (a - c - screen_origin)
  (screen_origin, screen_x_axis, screen_y_axis)

/-- Abstract model of the `rand::SmallRng` library generator used by
src/trace.rs: `next_u64 s` stands for `SmallRng::seed_from_u64(s).next_u64()`
and `stream s i` for the i-th `gen::<f32>()` draw of `SmallRng::seed_from_u64(s)`. -/
structure RngModel where
  next_u64 : ℕ → ℕ
  stream : ℕ → ℕ → ℝ

/-- Primary-ray direction computed per pixel by `Tracer::trace_frame`
(src/trace.rs lines 79-86): `u = x / w`, `v = y / h`, direction
`normalize(screen_origin + u * screen_x_dir + v * screen_y_dir)`. -/
def primary_ray_dir (cam : Cam) (w h : ℕ) (x y : ℕ) : Vec3 :=
  let svecs := cam.screen_vecs (w : ℝ) (h : ℝ)
  let u : ℝ := (x : ℝ) / (w : ℝ)
  let v : ℝ := (y : ℝ) / (h : ℝ)
  (svecs.1 + u • svecs.2.1 + v • svecs.2.2).normalize

/-- Color traced for one pixel of one frame by `Tracer::trace_frame`
(src/trace.rs lines 76-91): the per-row seed re-seeding, the per-pixel
generator, the primary ray and the call to `trace`. -/
def frame_pixel_color (rm : RngModel) (seed : ℕ) (cam : Cam) (w h : ℕ)
    (scene : List Sphere) (x y : ℕ) : Vec3 :=
  let row_seed := rm.next_u64 (seed + y)
  trace ⟨cam.pos, primary_ray_dir cam w h x y, MAX_BOUNCES, Vec3.repeat' 1,
    rm.stream (row_seed + x)⟩ scene

/-- Mutable tracer state, modelling `Tracer` from src/trace.rs.  The pixel
buffer is modelled as a total function on indices; cells outside the current
`dims.1 * dims.2` range are kept at the canonical `ERR_COLOR` (a `Vec` cell
that does not exist).  `u8`/`u64` fields are naturals with explicit caps. -/
structure Tracer where
  pixel_buf : ℕ → Vec3
  random_seed : Bool
  subsampling : ℕ
  accum_n_max : ℕ
  accum_n : ℕ
  reset_on_move : Bool
  dims : ℕ × ℕ
  prev_cam : Cam

/-- Largest `u64` value, used by `Tracer::toggle_accum` and
`u64::saturating_add`. -/
def U64_MAX : ℕ := 2 ^ 64 - 1

/-- Largest `u8` value, used by `u8::saturating_add` on `subsampling`. -/
def U8_MAX : ℕ := 255

/-- Constructor, modelling `Tracer::new` (empty buffer, random seeding on,
subsampling 4, accumulation off). -/
def Tracer.new : Tracer :=
  ⟨fun _ => ERR_COLOR, true, 4, 0, 0, false, (0, 0), Cam.new Vec3.zeros Vec3.zeros⟩

/-- Accumulation reset, modelling `Tracer::reset_accum`. -/
def Tracer.reset_accum (t : Tracer) : Tracer := { t with accum_n := 0 }

/-- Buffer resize, modelling `Tracer::resize_pixel_buf`: existing cells below
the old length survive, new cells are the sentinel `ERR_COLOR`, and the
accumulation counter resets. -/
def Tracer.resize_pixel_buf (t : Tracer) (dims : ℕ × ℕ) : Tracer :=
  let n := dims.1 * dims.2
  { t with
    pixel_buf := fun i =>
      if i < n then (if i < t.dims.1 * t.dims.2 then t.pixel_buf i else ERR_COLOR)
      else ERR_COLOR,
    dims := dims,
    accum_n := 0 }

open Classical in
/-- One frame of the dispatcher, modelling `Tracer::trace_frame` from
src/trace.rs.  `ext_seed` models the `rand::random()` per-frame seed used when
`random_seed` is set.  The `par_chunks_mut(w)` row loop writes exactly the
indices `i < w * h`, each as `lerp(old, color, 1 / (accum_n + 1))`. -/
def Tracer.trace_frame (rm : RngModel) (ext_seed : ℕ) (t : Tracer) (cam : Cam)
    (dims : ℕ × ℕ) (scene : List Sphere) : Tracer :=
  let t1 := if t.accum_n_max = 0 ∨ (t.reset_on_move = true ∧ cam ≠ t.prev_cam)
    then t.reset_accum else t
  let t2 := { t1 with prev_cam := cam }
  let t3 := if dims ≠ t2.dims then t2.resize_pixel_buf dims else t2
  let w := dims.1
  let h := dims.2
  let seed := if t3.random_seed then ext_seed else t3.accum_n
  let a : ℝ := 1 / ((t3.accum_n : ℝ) + 1)
  let t4 := { t3 with
    pixel_buf := fun i =>
      if i < w * h then
        lerp (t3.pixel_buf i) (frame_pixel_color rm seed cam w h scene (i % w) (i / w)) a
      else t3.pixel_buf i }
  if t4.accum_n < t4.accum_n_max then { t4 with accum_n := t4.accum_n + 1 } else t4

/-- Toggle between random and counter-based frame seeds, modelling
`Tracer::toggle_random_seed`. -/
def Tracer.toggle_random_seed (t : Tracer) : Tracer :=
  Tracer.reset_accum { t with random_seed := !t.random_seed }

/-- Toggle accumulation reset on camera movement, modelling
`Tracer::toggle_reset_on_move`. -/
def Tracer.toggle_reset_on_move (t : Tracer) : Tracer :=
  Tracer.reset_accum { t with reset_on_move := !t.reset_on_move }

/-- Toggle progressive accumulation, modelling `Tracer::toggle_accum`. -/
def Tracer.toggle_accum (t : Tracer) : Tracer :=
  Tracer.reset_accum
    { t with accum_n_max := if t.accum_n_max = 0 then U64_MAX else 0 }

/-- Decrease the accumulation cap, modelling `Tracer::decrease_accum_n_max`
(`u64::saturating_sub`). -/
def Tracer.decrease_accum_n_max (t : Tracer) : Tracer :=
  Tracer.reset_accum { t with accum_n_max := t.accum_n_max - 1 }

/-- Increase the accumulation cap, modelling `Tracer::increase_accum_n_max`
(`u64::saturating_add`). -/
def Tracer.increase_accum_n_max (t : Tracer) : Tracer :=
  Tracer.reset_accum { t with accum_n_max := min (t.accum_n_max + 1) U64_MAX }

/-- Decrease the subsampling divisor, modelling
`Tracer::decrease_subsampling_denom`: `cmp::max(1, subsampling - 1)` where the
subtraction is on `u8`. -/
def Tracer.decrease_subsampling_denom (t : Tracer) : Tracer :=
  Tracer.reset_accum { t with subsampling := max 1 (t.subsampling - 1) }

/-- Increase the subsampling divisor, modelling
`Tracer::increase_subsampling_denom` (`u8::saturating_add`). -/
def Tracer.increase_subsampling_denom (t : Tracer) : Tracer :=
  Tracer.reset_accum { t with subsampling := min (t.subsampling + 1) U8_MAX }

/-- One public operation on a `Tracer`, for stating reachability invariants
over every sequence of the public API of src/trace.rs. -/
inductive TracerOp where
  | frame (rm : RngModel) (ext_seed : ℕ) (cam : Cam) (dims : ℕ × ℕ) (scene : List Sphere)
  | toggle_random_seed
  | toggle_reset_on_move
  | toggle_accum
  | decrease_accum_n_max
  | increase_accum_n_max
  | decrease_subsampling_denom
  | increase_subsampling_denom
  | reset_accum

/-- Apply one public operation. -/
def TracerOp.apply (t : Tracer) : TracerOp → Tracer
  | .frame rm ext_seed cam dims scene => t.trace_frame rm ext_seed cam dims scene
  | .toggle_random_seed => t.toggle_random_seed
  | .toggle_reset_on_move => t.toggle_reset_on_move
  | .toggle_accum => t.toggle_accum
  | .decrease_accum_n_max => t.decrease_accum_n_max
  | .increase_accum_n_max => t.increase_accum_n_max
  | .decrease_subsampling_denom => t.decrease_subsampling_denom
  | .increase_subsampling_denom => t.increase_subsampling_denom
  | .reset_accum => t.reset_accum

/-- State after a sequence of public operations starting from `Tracer::new`. -/
def Tracer.run (ops : List TracerOp) : Tracer :=
  ops.foldl TracerOp.apply Tracer.new

/-- Repeated frames with a fixed camera, dimensions and scene:
`run_frames rm ext cam dims scene t n` is the state after `n` calls to
`trace_frame`. -/
def run_frames (rm : RngModel) (ext_seed : ℕ) (cam : Cam) (dims : ℕ × ℕ)
    (scene : List Sphere) (t : Tracer) : ℕ → Tracer
  | 0 => t
  | n + 1 => (run_frames rm ext_seed cam dims scene t n).trace_frame rm ext_seed cam dims scene

/-- Componentwise sum of the first `n` values of a vector sequence. -/
def vsum (f : ℕ → Vec3) (n : ℕ) : Vec3 :=
  ⟨Finset.sum (Finset.range n) (fun k => (f k).x),
   Finset.sum (Finset.range n) (fun k => (f k).y),
   Finset.sum (Finset.range n) (fun k => (f k).z)⟩

/-- Primary-ray direction following the spec sentence for claim C2 word for
word: `(u, v)` is the pixel center, `u = (x + 0.5) / w`, `v = (y + 0.5) / h`,
fed through the camera screen vectors and normalized. -/
def spec_pixel_center_dir (cam : Cam) (w h : ℕ) (x y : ℕ) : Vec3 :=
  let svecs := cam.screen_vecs (w : ℝ) (h : ℝ)
  let u : ℝ := ((x : ℝ) + 0.5) / (w : ℝ)
  let v : ℝ := ((y : ℝ) + 0.5) / (h : ℝ)
  (svecs.1 + u • svecs.2.1 + v • svecs.2.2).normalize

/-- Primary-ray direction following the amended wording of claim C2:
`(u, v)` is the pixel's top-left corner in normalized coordinates,
`u = x / w`, `v = y / h`, fed through the camera screen vectors and
normalized. -/
def spec_pixel_corner_dir (cam : Cam) (w h : ℕ) (x y : ℕ) : Vec3 :=
  let svecs := cam.screen_vecs (w : ℝ) (h : ℝ)
  let u : ℝ := (x : ℝ) / (w : ℝ)
  let v : ℝ := (y : ℝ) / (h : ℝ)
  (svecs.1 + u • svecs.2.1 + v • svecs.2.2).normalize

/-- Concrete diffuse material for test inputs. -/
def mat0 : Mat := Mat.diffuse ⟨0, 0, 1⟩

/-- Concrete camera looking along +z from the origin. -/
def cam0 : Cam := ⟨Vec3.zeros, ⟨0, 0, 1⟩⟩

/-- Concrete generator model: row reseeding is the identity and every draw is 0. -/
def rm0 : RngModel := ⟨fun s => s, fun _ _ => 0⟩

/-- Concrete unit sphere at the origin. -/
def s_unit : Sphere := ⟨Vec3.zeros, 1, mat0⟩

/-- Concrete ray starting at the centre of `s_unit` (origin strictly inside). -/
def ray_inside : BasicRay := ⟨Vec3.zeros, ⟨0, 0, 1⟩⟩

/-- Concrete ray exactly tangent to `s_unit` (touches it at (0,1,0)). -/
def ray_tangent : BasicRay := ⟨⟨0, 1, -2⟩, ⟨0, 0, 1⟩⟩

/-- Concrete path-tracing ray hitting `s_unit` head on at (0,0,1). -/
def ray_front : Ray := ⟨⟨0, 0, 2⟩, ⟨0, 0, -1⟩, 3, Vec3.repeat' 1, fun _ => 0⟩

/-- The hit `ray_front` produces on `s_unit`. -/
def hit_front : Hit := ⟨1, ⟨0, 0, 1⟩, mat0⟩

/-- Concrete path-tracing ray used with the empty scene (misses everything). -/
def ray_miss : Ray := ⟨Vec3.zeros, ⟨0, 0, 1⟩, 3, Vec3.repeat' 1, fun _ => 0⟩

/-- Concrete tracer state in accumulation mode (cap 2) just after a reset. -/
def st9 : Tracer := ⟨fun _ => Vec3.zeros, false, 4, 2, 0, false, (1, 1), cam0⟩

/-- Concrete tracer state whose accumulation counter has reached its cap. -/
def st9c : Tracer := ⟨fun _ => Vec3.zeros, false, 4, 1, 1, false, (1, 1), cam0⟩

theorem Vec3.mk_x (a b c : ℝ) : (Vec3.mk a b c).x = a := rfl

theorem Vec3.mk_y (a b c : ℝ) : (Vec3.mk a b c).y = b := rfl

theorem Vec3.mk_z (a b c : ℝ) : (Vec3.mk a b c).z = c := rfl

theorem Vec3.add_def (a b : Vec3) : a + b = ⟨a.x + b.x, a.y + b.y, a.z + b.z⟩ := rfl

theorem Vec3.sub_def (a b : Vec3) : a - b = ⟨a.x - b.x, a.y - b.y, a.z - b.z⟩ := rfl

theorem Vec3.neg_def (a : Vec3) : -a = ⟨-a.x, -a.y, -a.z⟩ := rfl

theorem Vec3.smul_def (r : ℝ) (a : Vec3) : r • a = ⟨r * a.x, r * a.y, r * a.z⟩ := rfl

theorem Vec3.zero_def : (0 : Vec3) = ⟨0, 0, 0⟩ := rfl

theorem Vec3.ext_iff' (a b : Vec3) : a = b ↔ a.x = b.x ∧ a.y = b.y ∧ a.z = b.z := by
  constructor
  · intro h; rw [h]; exact ⟨rfl, rfl, rfl⟩
  · intro h; cases a; cases b; simp only [Vec3.mk.injEq]
    exact ⟨h.1, h.2.1, h.2.2⟩

theorem sqrt_four : Real.sqrt 4 = 2 := by
  rw [show (4 : ℝ) = 2 ^ 2 by norm_num, Real.sqrt_sq (by norm_num : (0 : ℝ) ≤ 2)]

theorem dot_comm (a b : Vec3) : Vec3.dot a b = Vec3.dot b a := by
  simp only [Vec3.dot]; ring

/-- A sphere never reports an intersection for a ray whose origin is strictly
inside it: the root-selection `match` in `Sphere::intersect` keeps only the
smaller quadratic root, which is negative in that case, and the arm that
would return the larger root is unreachable because `root0 <= root1` always
holds.  This contradicts claim C1 for every interior ray (src/geom.rs lines
126-133). -/
theorem intersect_inside_none (s : Sphere) (ray : BasicRay)
    (ha : 0 < Vec3.dot ray.dir ray.dir)
    (hc : Vec3.dot (ray.origin - s.centre) (ray.origin - s.centre) <
      s.radius * s.radius) :
    s.intersect ray = none := by
  unfold Sphere.intersect
  simp only []
  set OC := ray.origin - s.centre with hOC
  set A := Vec3.dot ray.dir ray.dir with hA
  set B := 2 * Vec3.dot OC ray.dir with hB
  set C := Vec3.dot OC OC - s.radius * s.radius with hC
  have hcneg : C < 0 := by rw [hC]; linarith
  have hdisc : B * B < B * B - 4 * A * C := by nlinarith
  have hdisc0 : ¬ (B * B - 4 * A * C < 0) := by nlinarith
  rw [if_neg hdisc0]
  set SD := Real.sqrt (B * B - 4 * A * C) with hSD
  have hsd : |B| < SD := by
    rw [hSD, show |B| = Real.sqrt (B * B) by
      rw [show B * B = B ^ 2 by ring, Real.sqrt_sq_eq_abs]]
    exact Real.sqrt_lt_sqrt (mul_self_nonneg B) hdisc
  have hroot0 : -B - SD < 0 := by
    have := neg_abs_le B
    linarith
  have hle : -B - SD ≤ -B + SD := by
    have hnn : 0 ≤ SD := hSD ▸ Real.sqrt_nonneg _
    linarith
  rw [if_pos hle, if_neg (by linarith : ¬ (0 : ℝ) ≤ -B - SD)]
  rfl

/-- Witness for C1's divergence theorem: the concrete ray starting at the
centre of the unit sphere satisfies the interior hypotheses, and the code
returns no hit for it. -/
theorem intersect_inside_none_witness :
    (0 < Vec3.dot ray_inside.dir ray_inside.dir ∧
      Vec3.dot (ray_inside.origin - s_unit.centre) (ray_inside.origin - s_unit.centre) <
        s_unit.radius * s_unit.radius) ∧
    s_unit.intersect ray_inside = none := by
  have h1 : 0 < Vec3.dot ray_inside.dir ray_inside.dir := by
    simp [ray_inside, Vec3.dot]
  have h2 : Vec3.dot (ray_inside.origin - s_unit.centre) (ray_inside.origin - s_unit.centre) <
      s_unit.radius * s_unit.radius := by
    simp [ray_inside, s_unit, Vec3.dot, Vec3.sub_def, Vec3.zeros]
  exact ⟨⟨h1, h2⟩, intersect_inside_none s_unit ray_inside h1 h2⟩

/-- C3 (amended): with `a`, `b`, `c` the coefficients of the ray-sphere
quadratic as computed by `Sphere::intersect`, a negative discriminant yields
no hit; an exactly tangent ray (discriminant = 0) yields the tangent hit at
`t = -b / (2 a)` when `-b >= 0`, and no hit only when `-b < 0` (tangent point
behind the ray) -- not none in every tangent case as originally claimed. -/
theorem intersect_discriminant_cases (s : Sphere) (ray : BasicRay) (a b c : ℝ)
    (ha : a = Vec3.dot ray.dir ray.dir)
    (hb : b = 2 * Vec3.dot (ray.origin - s.centre) ray.dir)
    (hc : c = Vec3.dot (ray.origin - s.centre) (ray.origin - s.centre) -
      s.radius * s.radius) :
    (b * b - 4 * a * c < 0 → s.intersect ray = none) ∧
    (b * b - 4 * a * c = 0 → 0 ≤ -b →
      s.intersect ray = some ⟨-b / (2 * a),
        Vec3.divScalar ((ray.origin - s.centre) + (-b / (2 * a)) • ray.dir) s.radius,
        s.mat⟩) ∧
    (b * b - 4 * a * c = 0 → -b < 0 → s.intersect ray = none) := by
  subst ha hb hc
  refine ⟨fun hlt => ?_, fun heq hge => ?_, fun heq hlt => ?_⟩
  · unfold Sphere.intersect
    simp only []
    rw [if_pos hlt]
  · unfold Sphere.intersect
    simp only []
    rw [if_neg (by rw [heq]; exact lt_irrefl 0), heq, Real.sqrt_zero]
    rw [if_pos (by linarith), if_pos (by linarith)]
    simp only [Option.map_some', sub_zero]
  · unfold Sphere.intersect
    simp only []
    rw [if_neg (by rw [heq]; exact lt_irrefl 0), heq, Real.sqrt_zero]
    rw [if_pos (by linarith), if_neg (by simp only [sub_zero]; linarith)]
    rfl

/-- Witness for C3's amended theorem: instantiated at the concrete tangent
ray `ray_tangent` against the unit sphere, where the discriminant is exactly
zero and `-b = 4 >= 0`, the theorem yields the tangent hit at `t = 2`. -/
theorem intersect_discriminant_cases_witness :
    ((4 : ℝ) = Vec3.dot ray_tangent.dir ray_tangent.dir * 4 ∧
      (-4 : ℝ) = 2 * Vec3.dot (ray_tangent.origin - s_unit.centre) ray_tangent.dir) ∧
    s_unit.intersect ray_tangent = some ⟨-(-4 : ℝ) / (2 * 1),
      Vec3.divScalar ((ray_tangent.origin - s_unit.centre) +
        (-(-4 : ℝ) / (2 * 1)) • ray_tangent.dir) s_unit.radius, s_unit.mat⟩ := by
  have ha : (1 : ℝ) = Vec3.dot ray_tangent.dir ray_tangent.dir := by
    simp [ray_tangent, Vec3.dot]
  have hb : (-4 : ℝ) = 2 * Vec3.dot (ray_tangent.origin - s_unit.centre) ray_tangent.dir := by
    simp [ray_tangent, s_unit, Vec3.dot, Vec3.sub_def, Vec3.zeros]
    norm_num
  have hc : (4 : ℝ) = Vec3.dot (ray_tangent.origin - s_unit.centre)
      (ray_tangent.origin - s_unit.centre) - s_unit.radius * s_unit.radius := by
    simp [ray_tangent, s_unit, Vec3.dot, Vec3.sub_def, Vec3.zeros]
    norm_num
  refine ⟨⟨by rw [← ha]; norm_num, hb⟩, ?_⟩
  exact (intersect_discriminant_cases s_unit ray_tangent 1 (-4) 4 ha hb hc).2.1
    (by norm_num) (by norm_num)

/-- Counterexample to C3 as stated: the concrete ray `ray_tangent` is exactly
tangent to the unit sphere (discriminant = 0), yet `Sphere::intersect`
returns a hit (the tangent point at t = 2), not none. -/
theorem intersect_tangent_counterexample :
    2 * Vec3.dot (ray_tangent.origin - s_unit.centre) ray_tangent.dir *
        (2 * Vec3.dot (ray_tangent.origin - s_unit.centre) ray_tangent.dir) -
      4 * Vec3.dot ray_tangent.dir ray_tangent.dir *
        (Vec3.dot (ray_tangent.origin - s_unit.centre) (ray_tangent.origin - s_unit.centre) -
          s_unit.radius * s_unit.radius) = 0 ∧
    s_unit.intersect ray_tangent ≠ none := by
  constructor
  · simp [ray_tangent, s_unit, Vec3.dot, Vec3.sub_def, Vec3.zeros]
    norm_num
  · unfold Sphere.intersect
    simp only []
    rw [if_neg (by simp [ray_tangent, s_unit, Vec3.dot, Vec3.sub_def, Vec3.zeros]; norm_num)]
    rw [show 2 * Vec3.dot (ray_tangent.origin - s_unit.centre) ray_tangent.dir *
          (2 * Vec3.dot (ray_tangent.origin - s_unit.centre) ray_tangent.dir) -
        4 * Vec3.dot ray_tangent.dir ray_tangent.dir *
          (Vec3.dot (ray_tangent.origin - s_unit.centre) (ray_tangent.origin - s_unit.centre) -
            s_unit.radius * s_unit.radius) = 0 by
      simp [ray_tangent, s_unit, Vec3.dot, Vec3.sub_def, Vec3.zeros]; norm_num]
    rw [Real.sqrt_zero]
    simp [ray_tangent, s_unit, Vec3.dot, Vec3.sub_def, Vec3.zeros]

theorem min_by_t_foldl_mem (l : List Hit) (acc : Hit) :
    l.foldl (fun acc x => if x.t < acc.t then x else acc) acc = acc ∨
    l.foldl (fun acc x => if x.t < acc.t then x else acc) acc ∈ l := by
  induction l generalizing acc with
  | nil => left; rfl
  | cons y ys ih =>
    simp only [List.foldl_cons]
    rcases ih (if y.t < acc.t then y else acc) with h | h
    · rw [h]; split_ifs with hy
      · right; exact List.mem_cons_self _ _
      · left; rfl
    · right; exact List.mem_cons_of_mem _ h

theorem min_by_t_foldl_le (l : List Hit) (acc : Hit) :
    (l.foldl (fun acc x => if x.t < acc.t then x else acc) acc).t ≤ acc.t ∧
    ∀ h ∈ l, (l.foldl (fun acc x => if x.t < acc.t then x else acc) acc).t ≤ h.t := by
  induction l generalizing acc with
  | nil => exact ⟨le_refl _, by simp⟩
  | cons y ys ih =>
    simp only [List.foldl_cons]
    obtain ⟨h1, h2⟩ := ih (if y.t < acc.t then y else acc)
    constructor
    · refine le_trans h1 ?_
      split_ifs with hy
      · exact le_of_lt hy
      · exact le_refl _
    · intro h hm
      rcases List.mem_cons.mp hm with rfl | hm
      · refine le_trans h1 ?_
        split_ifs with hy
        · exact le_refl _
        · exact not_lt.mp hy
      · exact h2 h hm

theorem min_by_t_some_spec (l : List Hit) (h : Hit) (hsome : min_by_t l = some h) :
    h ∈ l ∧ ∀ h' ∈ l, h.t ≤ h'.t := by
  cases l with
  | nil => exact absurd hsome (by simp [min_by_t])
  | cons y ys =>
    have heq : ys.foldl (fun acc x => if x.t < acc.t then x else acc) y = h := by
      simpa [min_by_t] using hsome
    constructor
    · rcases min_by_t_foldl_mem ys y with hm | hm
      · rw [← heq, hm]; exact List.mem_cons_self _ _
      · rw [← heq]; exact List.mem_cons_of_mem _ hm
    · intro h' hm'
      obtain ⟨h1, h2⟩ := min_by_t_foldl_le ys y
      rcases List.mem_cons.mp hm' with rfl | hm'
      · rw [← heq]; exact h1
      · rw [← heq]; exact h2 h' hm'

theorem min_by_t_none_iff (l : List Hit) : min_by_t l = none ↔ l = [] := by
  cases l <;> simp [min_by_t]

/-- C7: `closest_hit` returns a hit of globally minimal `t`: when it returns
`some h`, some sphere of the scene produces exactly `h` (so intersects at
`t = h.t`) and no sphere intersects the ray at a smaller `t`; it returns
`none` precisely when no sphere of the scene intersects the ray
(src/geom.rs lines 94-103). -/
theorem closest_hit_is_minimum (ray : Ray) (scene : List Sphere) :
    (∀ h, closest_hit ray scene = some h →
      (∃ s, s ∈ scene ∧ s.intersect ⟨ray.origin, ray.dir⟩ = some h) ∧
      ∀ s ∈ scene, ∀ h', s.intersect ⟨ray.origin, ray.dir⟩ = some h' → h.t ≤ h'.t) ∧
    (closest_hit ray scene = none ↔
      ∀ s ∈ scene, s.intersect ⟨ray.origin, ray.dir⟩ = none) := by
  constructor
  · intro h hsome
    obtain ⟨hmem, hle⟩ := min_by_t_some_spec _ h hsome
    constructor
    · obtain ⟨s, hs, heq⟩ := List.mem_filterMap.mp hmem
      exact ⟨s, hs, heq⟩
    · intro s hs h' heq
      exact hle h' (List.mem_filterMap.mpr ⟨s, hs, heq⟩)
  · unfold closest_hit
    rw [min_by_t_none_iff, List.filterMap_eq_nil_iff]

/-- Witness for C7: on the one-sphere scene `[s_unit]` the concrete ray
`ray_front` produces the hit `hit_front` with `t = 1`, and the theorem's
minimality conclusion is instantiated there. -/
theorem closest_hit_is_minimum_witness :
    closest_hit ray_front [s_unit] = some hit_front ∧
    ∀ s ∈ [s_unit], ∀ h',
      s.intersect ⟨ray_front.origin, ray_front.dir⟩ = some h' → hit_front.t ≤ h'.t := by
  have hint : s_unit.intersect ⟨ray_front.origin, ray_front.dir⟩ = some hit_front := by
    unfold Sphere.intersect
    simp only []
    rw [if_neg (by simp [ray_front, s_unit, Vec3.dot, Vec3.sub_def, Vec3.zeros]; norm_num)]
    rw [show 2 * Vec3.dot ((⟨ray_front.origin, ray_front.dir⟩ : BasicRay).origin - s_unit.centre)
          (⟨ray_front.origin, ray_front.dir⟩ : BasicRay).dir *
          (2 * Vec3.dot ((⟨ray_front.origin, ray_front.dir⟩ : BasicRay).origin - s_unit.centre)
            (⟨ray_front.origin, ray_front.dir⟩ : BasicRay).dir) -
        4 * Vec3.dot (⟨ray_front.origin, ray_front.dir⟩ : BasicRay).dir
            (⟨ray_front.origin, ray_front.dir⟩ : BasicRay).dir *
          (Vec3.dot ((⟨ray_front.origin, ray_front.dir⟩ : BasicRay).origin - s_unit.centre)
            ((⟨ray_front.origin, ray_front.dir⟩ : BasicRay).origin - s_unit.centre) -
            s_unit.radius * s_unit.radius) = 4 by
      simp [ray_front, s_unit, Vec3.dot, Vec3.sub_def, Vec3.zeros]; norm_num]
    rw [sqrt_four]
    simp [ray_front, s_unit, hit_front, Vec3.dot, Vec3.sub_def, Vec3.add_def,
      Vec3.smul_def, Vec3.divScalar, Vec3.zeros, Vec3.ext_iff']
    norm_num
  have hch : closest_hit ray_front [s_unit] = some hit_front := by
    unfold closest_hit min_by_t
    simp [hint]
  exact ⟨hch, ((closest_hit_is_minimum ray_front [s_unit]).1 hit_front hch).2⟩

theorem intersect_front : s_unit.intersect ⟨ray_front.origin, ray_front.dir⟩ = some hit_front := by
  unfold Sphere.intersect
  simp only []
  rw [if_neg (by simp [ray_front, s_unit, Vec3.dot, Vec3.sub_def, Vec3.zeros]; norm_num)]
  rw [show 2 * Vec3.dot ((⟨ray_front.origin, ray_front.dir⟩ : BasicRay).origin - s_unit.centre)
        (⟨ray_front.origin, ray_front.dir⟩ : BasicRay).dir *
        (2 * Vec3.dot ((⟨ray_front.origin, ray_front.dir⟩ : BasicRay).origin - s_unit.centre)
          (⟨ray_front.origin, ray_front.dir⟩ : BasicRay).dir) -
      4 * Vec3.dot (⟨ray_front.origin, ray_front.dir⟩ : BasicRay).dir
          (⟨ray_front.origin, ray_front.dir⟩ : BasicRay).dir *
        (Vec3.dot ((⟨ray_front.origin, ray_front.dir⟩ : BasicRay).origin - s_unit.centre)
          ((⟨ray_front.origin, ray_front.dir⟩ : BasicRay).origin - s_unit.centre) -
          s_unit.radius * s_unit.radius) = 4 by
    simp [ray_front, s_unit, Vec3.dot, Vec3.sub_def, Vec3.zeros]; norm_num]
  rw [sqrt_four]
  simp [ray_front, s_unit, hit_front, Vec3.dot, Vec3.sub_def, Vec3.add_def,
    Vec3.smul_def, Vec3.divScalar, Vec3.zeros, Vec3.ext_iff']
  norm_num

theorem closest_hit_front : closest_hit ray_front [s_unit] = some hit_front := by
  unfold closest_hit min_by_t
  simp [intersect_front]

theorem trace_of_none (ray : Ray) (scene : List Sphere)
    (h : closest_hit ray scene = none) :
    trace ray scene = Vec3.component_mul background_color ray.throughput := by
  rw [trace, h]

/-- C8: a ray that hits nothing in the scene is shaded as exactly the
background color modulated componentwise by the ray's throughput
(src/trace.rs lines 189-191). -/
theorem trace_miss_background (ray : Ray) (scene : List Sphere)
    (h : closest_hit ray scene = none) :
    trace ray scene = Vec3.component_mul background_color ray.throughput := by
  rw [trace, h]

/-- Witness for C8: the concrete ray `ray_miss` over the empty scene misses
everything and is shaded `background_color * throughput`. -/
theorem trace_miss_background_witness :
    closest_hit ray_miss [] = none ∧
    trace ray_miss [] = Vec3.component_mul background_color ray_miss.throughput :=
  ⟨rfl, trace_miss_background ray_miss [] rfl⟩

/-- C6: at a hit, `trace` never divides by a zero sample pdf: if the sampled
pdf is 0 the continuation throughput is the zero vector and only the direct
light at this level is returned; otherwise the continuation throughput is
`old_throughput * (brdf * |wi . n| / pdf)` componentwise and the indirect ray
carries it (src/trace.rs lines 166-187). -/
theorem trace_pdf_guard (ray : Ray) (scene : List Sphere) (hit : Hit)
    (hch : closest_hit ray scene = some hit) :
    ((sample_wi (ray.rng 0) (ray.rng 1) (ray.rng 2) (-ray.dir) hit.normal hit.mat).pdf = 0 →
      trace ray scene = Vec3.component_mul
        (direct_light hit (ray.origin + hit.t • ray.dir) (-ray.dir) scene) ray.throughput) ∧
    ((sample_wi (ray.rng 0) (ray.rng 1) (ray.rng 2) (-ray.dir) hit.normal hit.mat).pdf ≠ 0 →
      trace ray scene =
        (if 0 < ray.bounces ∧ 0.01 < Vec3.comp_max
            (Vec3.component_mul ray.throughput
              (Vec3.divScalar
                ((|Vec3.dot (sample_wi (ray.rng 0) (ray.rng 1) (ray.rng 2) (-ray.dir)
                    hit.normal hit.mat).wi hit.normal|) •
                  (sample_wi (ray.rng 0) (ray.rng 1) (ray.rng 2) (-ray.dir)
                    hit.normal hit.mat).brdf)
                (sample_wi (ray.rng 0) (ray.rng 1) (ray.rng 2) (-ray.dir)
                  hit.normal hit.mat).pdf)) then
          Vec3.component_mul
            (direct_light hit (ray.origin + hit.t • ray.dir) (-ray.dir) scene) ray.throughput +
          trace ⟨ray.origin + hit.t • ray.dir +
              RAY_EPSILON • (sample_wi (ray.rng 0) (ray.rng 1) (ray.rng 2) (-ray.dir)
                hit.normal hit.mat).wi,
            (sample_wi (ray.rng 0) (ray.rng 1) (ray.rng 2) (-ray.dir) hit.normal hit.mat).wi,
            ray.bounces - 1,
            Vec3.component_mul ray.throughput
              (Vec3.divScalar
                ((|Vec3.dot (sample_wi (ray.rng 0) (ray.rng 1) (ray.rng 2) (-ray.dir)
                    hit.normal hit.mat).wi hit.normal|) •
                  (sample_wi (ray.rng 0) (ray.rng 1) (ray.rng 2) (-ray.dir)
                    hit.normal hit.mat).brdf)
                (sample_wi (ray.rng 0) (ray.rng 1) (ray.rng 2) (-ray.dir)
                  hit.normal hit.mat).pdf),
            fun i => ray.rng (i + 3)⟩ scene
        else
          Vec3.component_mul
            (direct_light hit (ray.origin + hit.t • ray.dir) (-ray.dir) scene)
            ray.throughput)) := by
  constructor
  · intro h0
    rw [trace, hch]
    simp only []
    rw [if_neg (not_not_intro h0)]
    rw [dif_neg (by
      simp only [Vec3.comp_max, Vec3.zeros, not_and]
      intro _
      norm_num)]
  · intro hne
    rw [trace, hch]
    simp only []
    rw [if_pos hne]
    rw [dite_eq_ite]

/-- Witness for C6: on the one-sphere scene the concrete ray `ray_front`
(whose generator always draws 0) produces a reflection sample whose `wi` is
on the wrong side of the normal, hence pdf = 0, and `trace` returns only the
direct light scaled by the throughput. -/
theorem trace_pdf_guard_witness :
    (closest_hit ray_front [s_unit] = some hit_front ∧
      (sample_wi (ray_front.rng 0) (ray_front.rng 1) (ray_front.rng 2) (-ray_front.dir)
        hit_front.normal hit_front.mat).pdf = 0) ∧
    trace ray_front [s_unit] = Vec3.component_mul
      (direct_light hit_front (ray_front.origin + hit_front.t • ray_front.dir)
        (-ray_front.dir) [s_unit]) ray_front.throughput := by
  have hpdf : (sample_wi (ray_front.rng 0) (ray_front.rng 1) (ray_front.rng 2)
      (-ray_front.dir) hit_front.normal hit_front.mat).pdf = 0 := by
    simp only [ray_front, hit_front, mat0, Mat.diffuse, sample_wi, dielectric_sample_wi,
      roulette_p, dielectric_reflection_sample_wi, orthonormal_basis_inverse_transform,
      reflect_vec, Vec3.comp_min, Vec3.cross, Vec3.normalize, Vec3.magnitude, Vec3.dot,
      Vec3.divScalar, Vec3.smul_def, Vec3.add_def, Vec3.neg_def, Vec3.sub_def,
      Vec3.zeros, Vec3.mk_x, Vec3.mk_y, Vec3.mk_z]
    norm_num [Real.rpow_one, Real.sqrt_one]
  exact ⟨⟨closest_hit_front, hpdf⟩,
    (trace_pdf_guard ray_front [s_unit] hit_front closest_hit_front).1 hpdf⟩

theorem vec3_dot_cross_self (n w : Vec3) : Vec3.dot n (Vec3.cross n w) = 0 := by
  simp only [Vec3.dot, Vec3.cross, Vec3.mk_x, Vec3.mk_y, Vec3.mk_z]
  ring

theorem dot_divScalar (n v : Vec3) (r : ℝ) :
    Vec3.dot n (v.divScalar r) = Vec3.dot n v / r := by
  simp only [Vec3.dot, Vec3.divScalar, Vec3.mk_x, Vec3.mk_y, Vec3.mk_z]
  ring

theorem dot_normalize_cross (n w : Vec3) :
    Vec3.dot n ((Vec3.cross n w).normalize) = 0 := by
  rw [Vec3.normalize, dot_divScalar, vec3_dot_cross_self, zero_div]

theorem dot_add_right (n a b : Vec3) : Vec3.dot n (a + b) = Vec3.dot n a + Vec3.dot n b := by
  simp only [Vec3.dot, Vec3.add_def, Vec3.mk_x, Vec3.mk_y, Vec3.mk_z]
  ring

theorem dot_smul_right (n : Vec3) (r : ℝ) (a : Vec3) :
    Vec3.dot n (r • a) = r * Vec3.dot n a := by
  simp only [Vec3.dot, Vec3.smul_def, Vec3.mk_x, Vec3.mk_y, Vec3.mk_z]
  ring

/-- The local-frame transform keeps the normal component: since both tangent
and bitangent are (normalized) cross products with `n`, they are orthogonal
to `n`, so `dot n (transform n v) = v.z` for a unit normal. -/
theorem dot_orthonormal_basis_inverse_transform (n v : Vec3) (hn : Vec3.dot n n = 1) :
    Vec3.dot n (orthonormal_basis_inverse_transform n v) = v.z := by
  unfold orthonormal_basis_inverse_transform
  simp only []
  rw [dot_add_right, dot_add_right, dot_smul_right, dot_smul_right, dot_smul_right,
    dot_normalize_cross, dot_normalize_cross, hn]
  ring

theorem dot_reflect (wo wh n : Vec3) :
    Vec3.dot (reflect_vec (-wo) wh) n =
      2 * Vec3.dot wh wo * Vec3.dot wh n - Vec3.dot wo n := by
  simp only [reflect_vec, Vec3.dot, Vec3.neg_def, Vec3.sub_def, Vec3.smul_def,
    Vec3.mk_x, Vec3.mk_y, Vec3.mk_z]
  ring

theorem refl_pdf_core (wo n v : Vec3) (s : ℝ) (hn : Vec3.dot n n = 1)
    (hwo : 0 < Vec3.dot wo n) (hz : 0 ≤ v.z) (hs : 0 ≤ s) :
    0 ≤ (if 0 ≤ Vec3.dot (reflect_vec (-wo) (orthonormal_basis_inverse_transform n v)) n
      then (s + 1) * Real.rpow (Vec3.dot n (orthonormal_basis_inverse_transform n v)) s /
        (2 * Real.pi) / (4 * Vec3.dot wo (orthonormal_basis_inverse_transform n v))
      else 0) := by
  set W := orthonormal_basis_inverse_transform n v with hW
  have hnW : Vec3.dot n W = v.z := dot_orthonormal_basis_inverse_transform n v hn
  split_ifs with hwi
  · rw [dot_reflect] at hwi
    have hWn : Vec3.dot W n = v.z := by rw [dot_comm]; exact hnW
    rw [hWn] at hwi
    have h1 : 0 < Vec3.dot W wo * v.z := by nlinarith
    have hzpos : 0 < v.z := by
      rcases eq_or_lt_of_le hz with h | h
      · exfalso; rw [← h, mul_zero] at h1; exact lt_irrefl 0 h1
      · exact h
    have hWwo : 0 < Vec3.dot W wo := by nlinarith
    apply div_nonneg
    · apply div_nonneg
      · exact mul_nonneg (by linarith) (Real.rpow_nonneg (by rw [hnW]; exact hz) s)
      · have := Real.pi_pos
        linarith
    · rw [dot_comm wo W]
      linarith
  · exact le_refl 0

theorem refl_sample_pdf_nonneg (r1 r2 : ℝ) (wo n : Vec3) (mat : Mat)
    (hn : Vec3.dot n n = 1) (hwo : 0 < Vec3.dot wo n) (hr2 : 0 ≤ r2)
    (hs : 0 ≤ mat.shininess) :
    0 ≤ (dielectric_reflection_sample_wi r1 r2 wo n mat).pdf := by
  unfold dielectric_reflection_sample_wi
  simp only []
  exact refl_pdf_core wo n
    ⟨Real.sqrt (1 - Real.rpow r2 (1 / (mat.shininess + 1)) *
        Real.rpow r2 (1 / (mat.shininess + 1))) * Real.cos (2 * Real.pi * r1),
      Real.sqrt (1 - Real.rpow r2 (1 / (mat.shininess + 1)) *
        Real.rpow r2 (1 / (mat.shininess + 1))) * Real.sin (2 * Real.pi * r1),
      Real.rpow r2 (1 / (mat.shininess + 1))⟩
    mat.shininess hn hwo (Real.rpow_nonneg hr2 _) hs

theorem roulette_p_bounds (mat : Mat)
    (hfx0 : 0 ≤ mat.fresnel.x) (hfx1 : mat.fresnel.x ≤ 1)
    (hfy0 : 0 ≤ mat.fresnel.y) (hfy1 : mat.fresnel.y ≤ 1)
    (hfz0 : 0 ≤ mat.fresnel.z) (hfz1 : mat.fresnel.z ≤ 1) :
    0.5 ≤ roulette_p mat ∧ roulette_p mat ≤ 1 := by
  unfold roulette_p Vec3.comp_min
  constructor
  · have h := le_min hfx0 (le_min hfy0 hfz0)
    linarith
  · have h := min_le_left mat.fresnel.x (min mat.fresnel.y mat.fresnel.z)
    linarith

/-- C4 (amended): for a unit normal, an outgoing direction strictly on the
normal's side (`wo . n > 0`, amended from `>= 0`), fresnel components in
[0,1], nonnegative shininess, and a nonnegative generator draw, the pdf
returned by `sample_wi` is nonnegative; and when the sampled reflection `wi`
falls on the wrong side of the normal its pdf is set to 0 (src/material.rs
lines 66-127, 141-154).  With `wo . n = 0` exactly, the pdf can be negative
(see the counterexample). -/
theorem sample_wi_pdf_nonneg (r0 r1 r2 : ℝ) (wo n : Vec3) (mat : Mat)
    (hn : Vec3.dot n n = 1) (hwo : 0 < Vec3.dot wo n) (hr2 : 0 ≤ r2)
    (hs : 0 ≤ mat.shininess)
    (hfx0 : 0 ≤ mat.fresnel.x) (hfx1 : mat.fresnel.x ≤ 1)
    (hfy0 : 0 ≤ mat.fresnel.y) (hfy1 : mat.fresnel.y ≤ 1)
    (hfz0 : 0 ≤ mat.fresnel.z) (hfz1 : mat.fresnel.z ≤ 1) :
    0 ≤ (sample_wi r0 r1 r2 wo n mat).pdf ∧
    (Vec3.dot (dielectric_reflection_sample_wi r1 r2 wo n mat).wi n < 0 →
      (dielectric_reflection_sample_wi r1 r2 wo n mat).pdf = 0) := by
  obtain ⟨hp05, hp1⟩ := roulette_p_bounds mat hfx0 hfx1 hfy0 hfy1 hfz0 hfz1
  constructor
  · unfold sample_wi dielectric_sample_wi
    simp only []
    split_ifs with hbranch
    · show 0 ≤ (dielectric_reflection_sample_wi r1 r2 wo n mat).pdf * roulette_p mat
      exact mul_nonneg (refl_sample_pdf_nonneg r1 r2 wo n mat hn hwo hr2 hs) (by linarith)
    · show 0 ≤ (dielectric_refraction_sample_wi r1 r2 wo n mat).pdf * (1 - roulette_p mat)
      apply mul_nonneg
      · unfold dielectric_refraction_sample_wi diffuse_sample_wi
        simp only []
        apply mul_nonneg (le_max_left 0 _)
        unfold FRAC_1_PI
        have := Real.pi_pos
        positivity
      · linarith
  · intro hlt
    unfold dielectric_reflection_sample_wi at hlt ⊢
    simp only [] at hlt ⊢
    rw [if_neg (not_le.mpr hlt)]

/-- Witness for C4's amended theorem at a concrete valid configuration
(unit normal (0,0,1), outgoing direction equal to the normal, diffuse
material, all draws 0). -/
theorem sample_wi_pdf_nonneg_witness :
    (Vec3.dot (⟨0, 0, 1⟩ : Vec3) (⟨0, 0, 1⟩ : Vec3) = 1 ∧
      0 < Vec3.dot (⟨0, 0, 1⟩ : Vec3) (⟨0, 0, 1⟩ : Vec3) ∧
      0 ≤ mat0.shininess ∧ mat0.fresnel.x ≤ 1) ∧
    0 ≤ (sample_wi 0 0 0 ⟨0, 0, 1⟩ ⟨0, 0, 1⟩ mat0).pdf := by
  have hn : Vec3.dot (⟨0, 0, 1⟩ : Vec3) (⟨0, 0, 1⟩ : Vec3) = 1 := by
    simp [Vec3.dot]
  refine ⟨⟨hn, by rw [hn]; norm_num, by simp [mat0, Mat.diffuse],
    by simp [mat0, Mat.diffuse, Vec3.zeros]⟩, ?_⟩
  exact (sample_wi_pdf_nonneg 0 0 0 ⟨0, 0, 1⟩ ⟨0, 0, 1⟩ mat0 hn (by rw [hn]; norm_num)
    (le_refl 0) (by simp [mat0, Mat.diffuse])
    (by simp [mat0, Mat.diffuse, Vec3.zeros]) (by simp [mat0, Mat.diffuse, Vec3.zeros])
    (by simp [mat0, Mat.diffuse, Vec3.zeros]) (by simp [mat0, Mat.diffuse, Vec3.zeros])
    (by simp [mat0, Mat.diffuse, Vec3.zeros]) (by simp [mat0, Mat.diffuse, Vec3.zeros])).1

/-- Counterexample to C4 as stated: with unit normal (0,0,1), outgoing
direction (0,-1,0) satisfying `wo . n = 0 >= 0`, the diffuse material (fresnel
components 0, inside [0,1]) and all generator draws 0, the reflection lobe is
chosen, the sampled `wi` lands exactly in the normal's plane (`wi . n = 0`, so
the wrong-side guard does not fire), `wo . wh = -1 < 0`, and the returned pdf
is `-1/(16 pi) < 0`. -/
theorem sample_wi_pdf_counterexample :
    (0 ≤ Vec3.dot (⟨0, -1, 0⟩ : Vec3) (⟨0, 0, 1⟩ : Vec3) ∧
      Vec3.dot (⟨0, 0, 1⟩ : Vec3) (⟨0, 0, 1⟩ : Vec3) = 1 ∧
      0 ≤ mat0.fresnel.x ∧ mat0.fresnel.x ≤ 1 ∧
      0 ≤ mat0.fresnel.y ∧ mat0.fresnel.y ≤ 1 ∧
      0 ≤ mat0.fresnel.z ∧ mat0.fresnel.z ≤ 1) ∧
    (sample_wi 0 0 0 ⟨0, -1, 0⟩ ⟨0, 0, 1⟩ mat0).pdf < 0 := by
  constructor
  · refine ⟨by simp [Vec3.dot], by simp [Vec3.dot], ?_, ?_, ?_, ?_, ?_, ?_⟩ <;>
      simp [mat0, Mat.diffuse, Vec3.zeros]
  · simp only [mat0, Mat.diffuse, sample_wi, dielectric_sample_wi, roulette_p,
      dielectric_reflection_sample_wi, orthonormal_basis_inverse_transform,
      reflect_vec, Vec3.comp_min, Vec3.cross, Vec3.normalize, Vec3.magnitude, Vec3.dot,
      Vec3.divScalar, Vec3.smul_def, Vec3.add_def, Vec3.neg_def, Vec3.sub_def,
      Vec3.zeros, Vec3.mk_x, Vec3.mk_y, Vec3.mk_z]
    norm_num [Real.rpow_one, Real.sqrt_one, Real.rpow_zero]
    nlinarith [inv_pos.mpr Real.pi_pos]

/-- C5: the Russian-roulette probability `p = 0.5 + min(fresnel)/2` lies in
[0.5, 1] for fresnel components in [0,1], and `dielectric_sample_wi` scales
the chosen reflection lobe's pdf by `p` and the refraction lobe's pdf by
`1 - p` (src/material.rs lines 66-81). -/
theorem dielectric_sample_wi_roulette (r0 r1 r2 : ℝ) (wo n : Vec3) (mat : Mat)
    (hfx0 : 0 ≤ mat.fresnel.x) (hfx1 : mat.fresnel.x ≤ 1)
    (hfy0 : 0 ≤ mat.fresnel.y) (hfy1 : mat.fresnel.y ≤ 1)
    (hfz0 : 0 ≤ mat.fresnel.z) (hfz1 : mat.fresnel.z ≤ 1) :
    (0.5 ≤ roulette_p mat ∧ roulette_p mat ≤ 1) ∧
    (r0 < roulette_p mat →
      (dielectric_sample_wi r0 r1 r2 wo n mat).pdf =
        (dielectric_reflection_sample_wi r1 r2 wo n mat).pdf * roulette_p mat) ∧
    (¬ r0 < roulette_p mat →
      (dielectric_sample_wi r0 r1 r2 wo n mat).pdf =
        (dielectric_refraction_sample_wi r1 r2 wo n mat).pdf * (1 - roulette_p mat)) := by
  refine ⟨roulette_p_bounds mat hfx0 hfx1 hfy0 hfy1 hfz0 hfz1, fun h => ?_, fun h => ?_⟩
  · unfold dielectric_sample_wi
    simp only []
    rw [if_pos h]
  · unfold dielectric_sample_wi
    simp only []
    rw [if_neg h]

/-- Witness for C5 at the diffuse material `mat0`, whose fresnel is the zero
vector: the roulette probability is exactly 0.5 and lies in [0.5, 1]. -/
theorem dielectric_sample_wi_roulette_witness :
    (0 ≤ mat0.fresnel.x ∧ mat0.fresnel.x ≤ 1) ∧
    (0.5 ≤ roulette_p mat0 ∧ roulette_p mat0 ≤ 1) := by
  have h0 : (0 : ℝ) ≤ mat0.fresnel.x := by simp [mat0, Mat.diffuse, Vec3.zeros]
  have h1 : mat0.fresnel.x ≤ 1 := by simp [mat0, Mat.diffuse, Vec3.zeros]
  refine ⟨⟨h0, h1⟩, ?_⟩
  exact (dielectric_sample_wi_roulette 0 0 0 Vec3.zeros Vec3.zeros mat0 h0 h1
    (by simp [mat0, Mat.diffuse, Vec3.zeros]) (by simp [mat0, Mat.diffuse, Vec3.zeros])
    (by simp [mat0, Mat.diffuse, Vec3.zeros]) (by simp [mat0, Mat.diffuse, Vec3.zeros])).1

/-- C2 (amended): the per-pixel color of `trace_frame` traces the ray whose
direction comes from the normalized coordinates of the pixel's top-left
corner, `u = x / w` and `v = y / h` (not the pixel center), fed through the
camera's screen vectors and normalized, starting at the camera position with
full bounce budget and unit throughput (src/trace.rs lines 78-91). -/
theorem frame_pixel_color_corner_uv (rm : RngModel) (seed : ℕ) (cam : Cam)
    (w h : ℕ) (scene : List Sphere) (x y : ℕ) :
    frame_pixel_color rm seed cam w h scene x y =
      trace ⟨cam.pos, spec_pixel_corner_dir cam w h x y, MAX_BOUNCES, Vec3.repeat' 1,
        rm.stream (rm.next_u64 (seed + y) + x)⟩ scene := rfl

theorem screen_vecs_cam0 :
    cam0.screen_vecs ((1 : ℕ) : ℝ) ((1 : ℕ) : ℝ) =
      (⟨Real.sin (FOV * Real.pi / 180 / 2), -Real.sin (FOV * Real.pi / 180 / 2),
          Real.cos (FOV * Real.pi / 180 / 2)⟩,
        ⟨-(2 * Real.sin (FOV * Real.pi / 180 / 2)), 0, 0⟩,
        ⟨0, 2 * Real.sin (FOV * Real.pi / 180 / 2), 0⟩) := by
  unfold Cam.screen_vecs
  simp only [cam0, Vec3.cross, Vec3.normalize, Vec3.magnitude, Vec3.dot, Vec3.divScalar,
    Vec3.smul_def, Vec3.sub_def, Vec3.add_def, Vec3.mk_x, Vec3.mk_y, Vec3.mk_z,
    Nat.cast_one]
  norm_num [Real.sqrt_one, Prod.ext_iff, Vec3.ext_iff']

theorem sin_fov_half_pos : 0 < Real.sin (FOV * Real.pi / 180 / 2) := by
  have hpi := Real.pi_pos
  apply Real.sin_pos_of_pos_of_lt_pi
  · unfold FOV; nlinarith
  · unfold FOV; nlinarith

/-- Counterexample to C2 as stated: at trace resolution 1x1 and pixel (0,0)
with the concrete camera `cam0`, the code's primary-ray direction (built from
`u = x / w = 0`) differs from the direction built from the pixel-center
coordinates `u = (x + 0.5) / w = 0.5` demanded by the claim. -/
theorem primary_ray_dir_ne_center :
    primary_ray_dir cam0 1 1 0 0 ≠ spec_pixel_center_dir cam0 1 1 0 0 := by
  intro heq
  have hx := congrArg Vec3.x heq
  unfold primary_ray_dir spec_pixel_center_dir at hx
  simp only [screen_vecs_cam0] at hx
  norm_num [Vec3.normalize, Vec3.magnitude, Vec3.dot, Vec3.divScalar, Vec3.smul_def,
    Vec3.add_def, Vec3.mk_x, Vec3.mk_y, Vec3.mk_z] at hx
  have hs := sin_fov_half_pos
  have harg : 0 < Real.sin (FOV * Real.pi / 180 / 2) * Real.sin (FOV * Real.pi / 180 / 2) +
      Real.sin (FOV * Real.pi / 180 / 2) * Real.sin (FOV * Real.pi / 180 / 2) +
      Real.cos (FOV * Real.pi / 180 / 2) * Real.cos (FOV * Real.pi / 180 / 2) := by
    nlinarith [Real.sin_sq_add_cos_sq (FOV * Real.pi / 180 / 2)]
  have hM : 0 < Real.sqrt
      (Real.sin (FOV * Real.pi / 180 / 2) * Real.sin (FOV * Real.pi / 180 / 2) +
        Real.sin (FOV * Real.pi / 180 / 2) * Real.sin (FOV * Real.pi / 180 / 2) +
        Real.cos (FOV * Real.pi / 180 / 2) * Real.cos (FOV * Real.pi / 180 / 2)) :=
    Real.sqrt_pos.mpr harg
  rw [show Real.sin (FOV * Real.pi / 180 / 2) +
      -(1 / 2 * (2 * Real.sin (FOV * Real.pi / 180 / 2))) = 0 by ring,
    show -Real.sin (FOV * Real.pi / 180 / 2) +
      1 / 2 * (2 * Real.sin (FOV * Real.pi / 180 / 2)) = 0 by ring] at hx
  norm_num at hx
  rcases hx with hx | hx
  · exact absurd hx (ne_of_gt hs)
  · exact absurd hx (ne_of_gt hM)

theorem trace_frame_subsampling (rm : RngModel) (ext_seed : ℕ) (t : Tracer) (cam : Cam)
    (dims : ℕ × ℕ) (scene : List Sphere) :
    (t.trace_frame rm ext_seed cam dims scene).subsampling = t.subsampling := by
  unfold Tracer.trace_frame Tracer.reset_accum Tracer.resize_pixel_buf
  simp only []
  split_ifs <;> rfl

theorem subsampling_step (t : Tracer) (op : TracerOp) (h : 1 ≤ t.subsampling) :
    1 ≤ (TracerOp.apply t op).subsampling := by
  cases op with
  | frame rm ext_seed cam dims scene =>
    show 1 ≤ (t.trace_frame rm ext_seed cam dims scene).subsampling
    rw [trace_frame_subsampling]; exact h
  | toggle_random_seed => exact h
  | toggle_reset_on_move => exact h
  | toggle_accum => exact h
  | decrease_accum_n_max => exact h
  | increase_accum_n_max => exact h
  | decrease_subsampling_denom =>
    show 1 ≤ max 1 (t.subsampling - 1)
    exact le_max_left 1 _
  | increase_subsampling_denom =>
    show 1 ≤ min (t.subsampling + 1) U8_MAX
    exact le_min (by omega) (by unfold U8_MAX; omega)
  | reset_accum => exact h

theorem subsampling_foldl (ops : List TracerOp) :
    ∀ t : Tracer, 1 ≤ t.subsampling → 1 ≤ (ops.foldl TracerOp.apply t).subsampling := by
  induction ops with
  | nil => intro t h; exact h
  | cons op rest ih =>
    intro t h
    exact ih (TracerOp.apply t op) (subsampling_step t op h)

/-- C10: starting from `Tracer::new` (subsampling = 4), every sequence of
public operations keeps `subsampling >= 1`; in particular the `u8`
subtraction inside `decrease_subsampling_denom` is only ever evaluated on a
state with `subsampling >= 1` (so it cannot underflow), and its result
`max(1, subsampling - 1)` is itself clamped to at least 1 on every state
(src/trace.rs lines 35-46, 131-139). -/
theorem subsampling_ge_one :
    (∀ ops : List TracerOp, 1 ≤ (Tracer.run ops).subsampling) ∧
    (∀ t : Tracer, 1 ≤ t.decrease_subsampling_denom.subsampling) := by
  constructor
  · intro ops
    exact subsampling_foldl ops Tracer.new (by norm_num [Tracer.new])
  · intro t
    exact le_max_left 1 _

theorem trace_frame_cond_false (t : Tracer) (cam : Cam) (hmax : t.accum_n_max ≠ 0)
    (hrom : t.reset_on_move = false) :
    ¬(t.accum_n_max = 0 ∨ (t.reset_on_move = true ∧ cam ≠ t.prev_cam)) := by
  simp [hmax, hrom]

theorem trace_frame_pixel_buf (rm : RngModel) (ext_seed : ℕ) (t : Tracer) (cam : Cam)
    (dims : ℕ × ℕ) (scene : List Sphere) (hmax : t.accum_n_max ≠ 0)
    (hrom : t.reset_on_move = false) (hdims : t.dims = dims) :
    (t.trace_frame rm ext_seed cam dims scene).pixel_buf = fun i =>
      if i < dims.1 * dims.2 then
        lerp (t.pixel_buf i)
          (frame_pixel_color rm (if t.random_seed then ext_seed else t.accum_n) cam
            dims.1 dims.2 scene (i % dims.1) (i / dims.1))
          (1 / ((t.accum_n : ℝ) + 1))
      else t.pixel_buf i := by
  unfold Tracer.trace_frame
  simp only []
  rw [if_neg (trace_frame_cond_false t cam hmax hrom)]
  rw [if_neg (show ¬(dims ≠ ({t with prev_cam := cam} : Tracer).dims) by simp [hdims])]
  split_ifs <;> rfl

theorem trace_frame_accum_n (rm : RngModel) (ext_seed : ℕ) (t : Tracer) (cam : Cam)
    (dims : ℕ × ℕ) (scene : List Sphere) (hmax : t.accum_n_max ≠ 0)
    (hrom : t.reset_on_move = false) (hdims : t.dims = dims) :
    (t.trace_frame rm ext_seed cam dims scene).accum_n =
      if t.accum_n < t.accum_n_max then t.accum_n + 1 else t.accum_n := by
  unfold Tracer.trace_frame
  simp only []
  rw [if_neg (trace_frame_cond_false t cam hmax hrom)]
  rw [if_neg (show ¬(dims ≠ ({t with prev_cam := cam} : Tracer).dims) by simp [hdims])]
  split_ifs <;> rfl

theorem trace_frame_fields (rm : RngModel) (ext_seed : ℕ) (t : Tracer) (cam : Cam)
    (dims : ℕ × ℕ) (scene : List Sphere) (hmax : t.accum_n_max ≠ 0)
    (hrom : t.reset_on_move = false) (hdims : t.dims = dims) :
    (t.trace_frame rm ext_seed cam dims scene).random_seed = t.random_seed ∧
    (t.trace_frame rm ext_seed cam dims scene).reset_on_move = t.reset_on_move ∧
    (t.trace_frame rm ext_seed cam dims scene).dims = t.dims ∧
    (t.trace_frame rm ext_seed cam dims scene).accum_n_max = t.accum_n_max := by
  unfold Tracer.trace_frame
  simp only []
  rw [if_neg (trace_frame_cond_false t cam hmax hrom)]
  rw [if_neg (show ¬(dims ≠ ({t with prev_cam := cam} : Tracer).dims) by simp [hdims])]
  split_ifs <;> exact ⟨rfl, rfl, rfl, rfl⟩

theorem run_frames_invariant (rm : RngModel) (ext_seed : ℕ) (cam : Cam) (dims : ℕ × ℕ)
    (scene : List Sphere) (t0 : Tracer) (hrs : t0.random_seed = false)
    (hrom : t0.reset_on_move = false) (hdims : t0.dims = dims) (hacc : t0.accum_n = 0)
    (hmax : 1 ≤ t0.accum_n_max) :
    ∀ k, k ≤ t0.accum_n_max →
      (run_frames rm ext_seed cam dims scene t0 k).random_seed = false ∧
      (run_frames rm ext_seed cam dims scene t0 k).reset_on_move = false ∧
      (run_frames rm ext_seed cam dims scene t0 k).dims = dims ∧
      (run_frames rm ext_seed cam dims scene t0 k).accum_n_max = t0.accum_n_max ∧
      (run_frames rm ext_seed cam dims scene t0 k).accum_n = k := by
  intro k
  induction k with
  | zero => intro _; exact ⟨hrs, hrom, hdims, rfl, hacc⟩
  | succ k ih =>
    intro hk
    obtain ⟨i1, i2, i3, i4, i5⟩ := ih (by omega)
    have hne : (run_frames rm ext_seed cam dims scene t0 k).accum_n_max ≠ 0 := by omega
    obtain ⟨f1, f2, f3, f4⟩ := trace_frame_fields rm ext_seed _ cam dims scene hne i2 i3
    refine ⟨by rw [run_frames]; rw [f1]; exact i1,
      by rw [run_frames]; rw [f2]; exact i2,
      by rw [run_frames]; rw [f3]; exact i3,
      by rw [run_frames]; rw [f4]; exact i4, ?_⟩
    rw [run_frames, trace_frame_accum_n rm ext_seed _ cam dims scene hne i2 i3]
    rw [i5, i4, if_pos (by omega)]

theorem lerp_one (x y : Vec3) : lerp x y 1 = y := by
  rw [Vec3.ext_iff']
  simp only [lerp, Vec3.smul_def, Vec3.add_def, Vec3.mk_x, Vec3.mk_y, Vec3.mk_z]
  norm_num

theorem lerp_mean_step (m c : Vec3) (S : Vec3) (k : ℕ) (hk : 1 ≤ k)
    (hm : m = Vec3.divScalar S (k : ℝ)) :
    lerp m c (1 / ((k : ℝ) + 1)) =
      Vec3.divScalar ⟨S.x + c.x, S.y + c.y, S.z + c.z⟩ ((k : ℝ) + 1) := by
  have hk0 : (k : ℝ) ≠ 0 := by
    have : (1 : ℝ) ≤ (k : ℝ) := by exact_mod_cast hk
    linarith
  have hk1 : (k : ℝ) + 1 ≠ 0 := by positivity
  subst hm
  rw [Vec3.ext_iff']
  simp only [lerp, Vec3.smul_def, Vec3.add_def, Vec3.divScalar, Vec3.mk_x, Vec3.mk_y,
    Vec3.mk_z]
  refine ⟨?_, ?_, ?_⟩ <;> field_simp <;> ring

theorem run_frames_mean (rm : RngModel) (ext_seed : ℕ) (cam : Cam) (dims : ℕ × ℕ)
    (scene : List Sphere) (t0 : Tracer) (hrs : t0.random_seed = false)
    (hrom : t0.reset_on_move = false) (hdims : t0.dims = dims) (hacc : t0.accum_n = 0)
    (hmax : 1 ≤ t0.accum_n_max) :
    ∀ k, 1 ≤ k → k ≤ t0.accum_n_max → ∀ i, i < dims.1 * dims.2 →
      (run_frames rm ext_seed cam dims scene t0 k).pixel_buf i =
        Vec3.divScalar
          (vsum (fun j => frame_pixel_color rm j cam dims.1 dims.2 scene
            (i % dims.1) (i / dims.1)) k) (k : ℝ) := by
  intro k
  induction k with
  | zero => intro h; omega
  | succ k ih =>
    intro _ hk i hi
    obtain ⟨i1, i2, i3, i4, i5⟩ := run_frames_invariant rm ext_seed cam dims scene t0
      hrs hrom hdims hacc hmax k (by omega)
    have hne : (run_frames rm ext_seed cam dims scene t0 k).accum_n_max ≠ 0 := by omega
    rw [run_frames, trace_frame_pixel_buf rm ext_seed _ cam dims scene hne i2 i3]
    simp only [if_pos hi, i1, i5, Bool.false_eq_true, if_false]
    rcases Nat.eq_zero_or_pos k with hk0 | hkpos
    · subst hk0
      rw [show ((0 : ℕ) : ℝ) + 1 = 1 by norm_num, div_one, lerp_one]
      rw [Vec3.ext_iff']
      simp only [vsum, Vec3.divScalar, Finset.range_one, Finset.sum_singleton,
        Vec3.mk_x, Vec3.mk_y, Vec3.mk_z, Nat.cast_one]
      norm_num
    · rw [lerp_mean_step _ _ (vsum (fun j => frame_pixel_color rm j cam dims.1 dims.2
          scene (i % dims.1) (i / dims.1)) k) k hkpos (ih hkpos (by omega) i hi)]
      rw [Vec3.ext_iff']
      simp only [vsum, Vec3.divScalar, Vec3.mk_x, Vec3.mk_y, Vec3.mk_z,
        Finset.sum_range_succ, Nat.cast_succ]
      exact ⟨trivial, trivial, trivial⟩

/-- C9 (amended): in accumulation mode every call to `trace_frame` (with no
pending reset: nonzero cap, reset-on-move off, unchanged dimensions) blends
every pixel as `new = lerp(old, sample, 1/(n+1))` where `n` is the current
accumulation counter, and increments `n` only while `n < cap`; consequently,
with counter-based seeding, running `N <= cap` frames from a reset yields
exactly the arithmetic mean of the `N` frames' single-sample colors.  Once
`n` reaches the cap only the counter freezes: blending continues every frame
with the constant weight `1/(cap+1)`, so the buffer does not become static
(src/trace.rs lines 48-100). -/
theorem trace_frame_progressive :
    (∀ (rm : RngModel) (ext_seed : ℕ) (t : Tracer) (cam : Cam) (dims : ℕ × ℕ)
        (scene : List Sphere), t.accum_n_max ≠ 0 → t.reset_on_move = false →
        t.dims = dims → ∀ i, i < dims.1 * dims.2 →
        (t.trace_frame rm ext_seed cam dims scene).pixel_buf i =
          lerp (t.pixel_buf i)
            (frame_pixel_color rm (if t.random_seed then ext_seed else t.accum_n) cam
              dims.1 dims.2 scene (i % dims.1) (i / dims.1))
            (1 / ((t.accum_n : ℝ) + 1)) ∧
        (t.trace_frame rm ext_seed cam dims scene).accum_n =
          (if t.accum_n < t.accum_n_max then t.accum_n + 1 else t.accum_n)) ∧
    (∀ (rm : RngModel) (ext_seed : ℕ) (cam : Cam) (dims : ℕ × ℕ)
        (scene : List Sphere) (t0 : Tracer), t0.random_seed = false →
        t0.reset_on_move = false → t0.dims = dims → t0.accum_n = 0 →
        1 ≤ t0.accum_n_max → ∀ N, 1 ≤ N → N ≤ t0.accum_n_max →
        ∀ i, i < dims.1 * dims.2 →
        (run_frames rm ext_seed cam dims scene t0 N).pixel_buf i =
          Vec3.divScalar
            (vsum (fun j => frame_pixel_color rm j cam dims.1 dims.2 scene
              (i % dims.1) (i / dims.1)) N) (N : ℝ)) := by
  constructor
  · intro rm ext_seed t cam dims scene hmax hrom hdims i hi
    constructor
    · rw [trace_frame_pixel_buf rm ext_seed t cam dims scene hmax hrom hdims]
      simp only [if_pos hi]
    · exact trace_frame_accum_n rm ext_seed t cam dims scene hmax hrom hdims
  · intro rm ext_seed cam dims scene t0 hrs hrom hdims hacc hmax N h1 h2 i hi
    exact run_frames_mean rm ext_seed cam dims scene t0 hrs hrom hdims hacc hmax
      N h1 h2 i hi

/-- Witness for C9's amended theorem: one frame from the concrete reset state
`st9` (cap 2, counter-based seeding, 1x1 buffer, empty scene) equals the mean
of one single-sample frame. -/
theorem trace_frame_progressive_witness :
    (st9.random_seed = false ∧ st9.reset_on_move = false ∧ st9.dims = (1, 1) ∧
      st9.accum_n = 0 ∧ 1 ≤ st9.accum_n_max ∧ (0 : ℕ) < 1 * 1) ∧
    (run_frames rm0 0 cam0 (1, 1) [] st9 1).pixel_buf 0 =
      Vec3.divScalar (vsum (fun j => frame_pixel_color rm0 j cam0 1 1 [] 0 0) 1)
        ((1 : ℕ) : ℝ) := by
  refine ⟨⟨rfl, rfl, rfl, rfl, by norm_num [st9], by norm_num⟩, ?_⟩
  exact trace_frame_progressive.2 rm0 0 cam0 (1, 1) [] st9 rfl rfl rfl rfl
    (by norm_num [st9]) 1 (le_refl 1) (by norm_num [st9]) 0 (by norm_num)

/-- Counterexample to C9 as stated: in the concrete state `st9c` the
accumulation counter has reached its cap (`n = cap = 1`), yet the next
`trace_frame` call still changes the buffer (it blends the new sample with
weight `1/(cap+1) = 1/2`), contradicting the claim that once `n` reaches the
cap the buffer stops changing until a reset. -/
theorem trace_frame_capped_counterexample :
    st9c.accum_n = st9c.accum_n_max ∧
    (st9c.trace_frame rm0 0 cam0 (1, 1) []).pixel_buf 0 ≠ st9c.pixel_buf 0 := by
  refine ⟨rfl, ?_⟩
  rw [trace_frame_pixel_buf rm0 0 st9c cam0 (1, 1) [] (by norm_num [st9c]) rfl rfl]
  simp only []
  rw [if_pos (by norm_num)]
  have hfpc : frame_pixel_color rm0 (if st9c.random_seed then 0 else st9c.accum_n)
      cam0 1 1 [] (0 % 1) (0 / 1) =
      Vec3.component_mul background_color (Vec3.repeat' 1) := by
    unfold frame_pixel_color
    simp only []
    exact trace_of_none _ _ rfl
  rw [hfpc]
  intro h
  have hx := congrArg Vec3.x h
  norm_num [st9c, lerp, background_color, Vec3.component_mul, Vec3.repeat',
    Vec3.smul_def, Vec3.add_def, Vec3.zeros, Vec3.mk_x] at hx

end
